import Mathlib

/-!
# Verification of the treeman buffer/selection/edit engine

A shallow embedding of the core of the treeman editor (`src/buffer.rs`,
`src/components/editor.rs`, `src/selection_mode/line_trimmed.rs`) in Lean 4,
together with theorems settling the specification's claims about it.

Rust text ropes (the `ropey` crate) are modelled as `List Char`; character
indices and byte indices are `Nat`.  Fallible operations return `Option`
(`none` models either a returned `Err` or a library panic, as documented at
each definition).  The external crates (`ropey`, `diffy`, `tree-sitter`) are
modelled by their documented semantics, as noted at each definition.
-/

namespace Treeman

/-- Model of `ropey::Rope`: the text as a list of Unicode scalar values. -/
abbrev Rope := List Char

/-- Number of chars of the rope (`Rope::len_chars`). -/
def lenChars (r : Rope) : Nat := r.length

/-- Total UTF-8 byte length of the rope (`Rope::len_bytes`). -/
def byteLen (r : Rope) : Nat := (r.map Char.utf8Size).sum

/-- `Rope::char_to_byte` without the bounds check: byte offset of the `c`-th char. -/
def charToByte (r : Rope) (c : Nat) : Nat := byteLen (r.take c)

/-- `Rope::byte_to_char` without the bounds check: index of the char containing
byte `b` (one-past-the-end for `b = byteLen r`), per ropey's documented
flooring behaviour. -/
def byteToChar : Rope → Nat → Nat
  | [], _ => 0
  | ch :: rest, b => if b < ch.utf8Size then 0 else byteToChar rest (b - ch.utf8Size) + 1

/-- `Rope::try_char_to_byte`: errs iff `c > len_chars`. -/
def tryCharToByte (r : Rope) (c : Nat) : Option Nat :=
  if c ≤ lenChars r then some (charToByte r c) else none

/-- `Rope::try_byte_to_char`: errs iff `b > len_bytes`. -/
def tryByteToChar (r : Rope) (b : Nat) : Option Nat :=
  if b ≤ byteLen r then some (byteToChar r b) else none

/-- The lines of the rope, each including its terminating newline when present.
Ropey semantics: there is always at least one line, and a text ending in `'\n'`
has a trailing empty line. -/
def lines : Rope → List Rope
  | [] => [[]]
  | ch :: rest =>
    if ch = '\n' then [ch] :: lines rest
    else
      match lines rest with
      | [] => [[ch]]
      | l :: ls => (ch :: l) :: ls

/-- `Rope::len_lines`. -/
def lenLines (r : Rope) : Nat := (lines r).length

/-- `Rope::char_to_line` without the bounds check: for `c ≤ lenChars r` this is
the index of the line containing char `c` (the last line for `c = lenChars r`),
which equals the number of newlines among the first `c` chars. -/
def charToLine (r : Rope) (c : Nat) : Nat := (r.take c).count '\n'

/-- `Rope::line_to_char` without the bounds check: char index of the start of
line `l` (for `l = lenLines r`, one-past-the-end, this is `lenChars r`). -/
def lineToChar (r : Rope) (l : Nat) : Nat := (((lines r).take l).map List.length).sum

/-- `Rope::try_char_to_line`: errs iff `c > len_chars`. -/
def tryCharToLine (r : Rope) (c : Nat) : Option Nat :=
  if c ≤ lenChars r then some (charToLine r c) else none

/-- `Rope::try_line_to_char`: errs iff `l > len_lines` (ropey allows the
one-past-the-end line index). -/
def tryLineToChar (r : Rope) (l : Nat) : Option Nat :=
  if l ≤ lenLines r then some (lineToChar r l) else none

/-- `Position` (`src/position.rs` is not under `src/`; the spec defines it as
`(line, column)` with column counted in characters from line start). -/
structure Position where
  line : Nat
  column : Nat
  deriving DecidableEq, Repr

namespace Buffer

/-! Position-mapping methods of `Buffer` (`src/buffer.rs:129-161`), acting on
the buffer's rope.  `CharIndex` is a newtype of `usize`, modelled as `Nat`. -/

/-- `Buffer::char_to_line`. -/
def charToLine (r : Rope) (charIndex : Nat) : Option Nat := tryCharToLine r charIndex

/-- `Buffer::line_to_char`. -/
def lineToChar (r : Rope) (lineIndex : Nat) : Option Nat := tryLineToChar r lineIndex

/-- `Buffer::char_to_byte`. -/
def charToByte (r : Rope) (charIndex : Nat) : Option Nat := tryCharToByte r charIndex

/-- `Buffer::byte_to_char`. -/
def byteToChar (r : Rope) (byteIndex : Nat) : Option Nat := tryByteToChar r byteIndex

/-- `Buffer::char_to_position` (`src/buffer.rs:141-151`): the line of the char
index, and the column obtained by `saturating_sub` of the line-start char index
(`unwrap_or(0)` on the inner line-start lookup). -/
def charToPosition (r : Rope) (charIndex : Nat) : Option Position :=
  (charToLine r charIndex).map fun line =>
    { line := line
      column :=
        match tryLineToChar r line with
        | some lineStartCharIndex => charIndex - lineStartCharIndex
        | none => 0 }

/-- `Buffer::position_to_char` (`src/buffer.rs:153-157`):
`try_line_to_char(position.line)? + position.column`.  Note: the column is
added without any clamping. -/
def positionToChar (r : Rope) (position : Position) : Option Nat :=
  (tryLineToChar r position.line).map fun lineStart => lineStart + position.column

end Buffer

/-! ## Shared text helpers -/

/-- `Buffer::slice` / `Rope::slice` on a char range (meaningful for
`s ≤ e ≤ lenChars r`; callers proved below stay in bounds). -/
def sliceChars (r : Rope) (s e : Nat) : Rope := (r.take e).drop s

/-- `str::ends_with('\n')`. -/
def endsWithNewline (r : Rope) : Bool := r.getLast? = some '\n'

/-- `s.trim().is_empty()` for Rust strings: the text contains only whitespace
(or is empty).  `Char.isWhitespace` agrees with Rust `char::is_whitespace` on
the ASCII whitespace used throughout. -/
def isBlank (r : Rope) : Bool := r.all Char.isWhitespace

/-! ## Edits and the diff-based history (`src/buffer.rs`) -/

/-- Model of a `diffy` unified-format patch string, as created by
`diffy::create_patch(original, modified)`: we record the two texts.
`diffy::apply` is modelled as exact-match application: it returns
`modified` when the input equals `original` and fails otherwise.  (Real
`diffy` can also apply a patch fuzzily to a third text when the hunk context
matches; every flow verified below applies patches to the exact text they
were created from, where `diffy` is guaranteed to succeed, or to a text whose
hunk context mismatches, where it is guaranteed to fail.) -/
structure DiffyPatch where
  fromText : Rope
  toText : Rope
  deriving DecidableEq, Repr

/-- `diffy::create_patch(original, modified)`. -/
def diffyCreatePatch (original modified : Rope) : DiffyPatch :=
  { fromText := original, toText := modified }

/-- `diffy::apply(text, patch)`; `none` models `Err`. -/
def diffyApply (text : Rope) (p : DiffyPatch) : Option Rope :=
  if text = p.fromText then some p.toText else none

/-- `Patch` (`src/buffer.rs:511-518`).  The selection-set type is a parameter
`σ`: the history code stores and returns selection sets without inspecting
them. -/
structure Patch (σ : Type) where
  selection_set : σ
  patch : DiffyPatch
  deriving DecidableEq, Repr

/-- `Buffer` (`src/buffer.rs:19-30`), restricted to the fields the verified
operations read or write: the rope and the two history stacks.  The syntax
tree is rebuilt from the rope text after every verified mutation
(`reparse_tree`), so it is a function of `rope` and carries no extra state;
the remaining fields (path, language, overlays) are untouched by the verified
operations.  The head of each list is the top of the `Vec` stack. -/
structure Buffer (σ : Type) where
  rope : Rope
  undo_patch : List (Patch σ)
  redo_patches : List (Patch σ)
  deriving DecidableEq, Repr

/-- `Edit` (`src/edit.rs`, whose text is not under `src/`): per the spec,
`{ range: CharIndexRange, new: Rope }`, interpreted as replace `range` with
`new`; `start`/`stop` are the char-index range ends (`edit.start`,
`edit.end()` in `Buffer::apply_edit`). -/
structure Edit where
  start : Nat
  stop : Nat
  new : Rope
  deriving DecidableEq, Repr

/-- `Rope::remove(start..end)`: per ropey's documentation it panics when
`start > end` or `end > len_chars`; `none` models the panic. -/
def tryRemove (r : Rope) (s e : Nat) : Option Rope :=
  if s ≤ e ∧ e ≤ lenChars r then some (r.take s ++ r.drop e) else none

/-- `Rope::insert(char_idx, text)`: panics (`none`) when
`char_idx > len_chars`. -/
def tryInsert (r : Rope) (i : Nat) (t : Rope) : Option Rope :=
  if i ≤ lenChars r then some (r.take i ++ t ++ r.drop i) else none

/-- `Buffer::apply_edit` (`src/buffer.rs:251-256`): remove the edit's range,
then insert the new text at its start.  The Rust function always returns
`Ok(())`; the only failure mode is a ropey panic on an out-of-range index,
modelled by `none`. -/
def applyEdit (r : Rope) (e : Edit) : Option Rope :=
  (tryRemove r e.start e.stop).bind fun removed => tryInsert removed e.start e.new

/-- The fold over `edit_transaction.edits()` inside
`Buffer::apply_edit_transaction` (`src/buffer.rs:237-243`): edits are applied
sequentially, stopping at the first failure. -/
def applyEdits : Rope → List Edit → Option Rope
  | r, [] => some r
  | r, e :: es => (applyEdit r e).bind fun r2 => applyEdits r2 es

/-- An edit transaction as consumed by `Buffer::apply_edit_transaction`.
Modelled from the spec: `EditTransaction` lives in `src/edit.rs`, which is not
under `src/`; per spec §4.5 `edits()` yields the transaction's edits in
document order with ranges already shifted by the running delta of the
preceding edits. -/
abbrev EditTransaction := List Edit

/-- `Buffer::add_undo_patch` (`src/buffer.rs:258-270`): called with the rope
already updated; does nothing when the text did not change, otherwise clears
the redo stack and pushes a reverse patch (from the new text back to the old)
together with the selection set that was current when the transaction was
applied. -/
def Buffer.addUndoPatch {σ} (b : Buffer σ) (current_selection_set : σ) (before : Rope) :
    Buffer σ :=
  if before = b.rope then b
  else
    { b with
      redo_patches := []
      undo_patch :=
        { selection_set := current_selection_set
          patch := diffyCreatePatch b.rope before } :: b.undo_patch }

/-- `Buffer::apply_edit_transaction` (`src/buffer.rs:231-249`): apply every
edit in order, then record the undo patch and reparse.  Reparsing recomputes
the tree from the rope and cannot alter the modelled state.  `none` models a
ropey panic inside `apply_edit`; the Rust function's `Result` is `Ok` whenever
the edits stay in bounds. -/
def Buffer.applyEditTransaction {σ} (b : Buffer σ) (edit_transaction : EditTransaction)
    (current_selection_set : σ) : Option (Buffer σ) :=
  (applyEdits b.rope edit_transaction).map fun r =>
    Buffer.addUndoPatch { b with rope := r } current_selection_set b.rope

/-- `Buffer::revert_change` (`src/buffer.rs:300-321`): apply the stored diff
to the current text and return the inverse patch carrying the caller's current
selection set.  The Rust code calls `.unwrap()` on `diffy::apply`, so a patch
that does not apply cleanly panics; `none` models that panic. -/
def Buffer.revertChange {σ} (b : Buffer σ) (p : Patch σ) (current_selection_set : σ) :
    Option (Buffer σ × Patch σ) :=
  (diffyApply b.rope p.patch).map fun newRope =>
    ({ b with rope := newRope },
     { selection_set := current_selection_set
       patch := diffyCreatePatch newRope b.rope })

/-- `Buffer::undo` (`src/buffer.rs:272-284`): pop the undo stack, revert, push
the inverse onto the redo stack, and return the selection set recorded when
the popped transaction was applied (`none` as the returned selection set means
the history was empty). -/
def Buffer.undo {σ} (b : Buffer σ) (current_selection_set : σ) :
    Option (Buffer σ × Option σ) :=
  match b.undo_patch with
  | [] => some (b, none)
  | p :: rest =>
    (Buffer.revertChange { b with undo_patch := rest } p current_selection_set).map
      fun x => ({ x.1 with redo_patches := x.2 :: x.1.redo_patches }, some p.selection_set)

/-- `Buffer::redo` (`src/buffer.rs:286-298`), symmetric to `undo`. -/
def Buffer.redo {σ} (b : Buffer σ) (current_selection_set : σ) :
    Option (Buffer σ × Option σ) :=
  match b.redo_patches with
  | [] => some (b, none)
  | p :: rest =>
    (Buffer.revertChange { b with redo_patches := rest } p current_selection_set).map
      fun x => ({ x.1 with undo_patch := x.2 :: x.1.undo_patch }, some p.selection_set)

/-- Sequential in-bounds check for a transaction's edits: each edit's range
must be well-formed and inside the rope obtained after applying the preceding
edits.  Used to characterise when `apply_edit_transaction` panics. -/
def editsInBounds : Rope → List Edit → Bool
  | _, [] => true
  | r, e :: es =>
    decide (e.start ≤ e.stop) && decide (e.stop ≤ lenChars r)
      && editsInBounds (r.take e.start ++ e.new ++ r.drop e.stop) es

/-! ## Kill (`src/components/editor.rs:1089-1160`) -/

/-- `CharIndexRange` (`src/char_index_range.rs` is not under `src/`): a
half-open char-index range; `stop` stands for the Rust field `end`, which is a
reserved word in Lean. -/
structure CharIndexRange where
  start : Nat
  stop : Nat
  deriving DecidableEq, Repr

/-- `CharIndexRange::len`. -/
def CharIndexRange.len (r : CharIndexRange) : Nat := r.stop - r.start

/-- `CharIndexRange::shift_left` — Modelled from the spec: the defining file
is not under `src/`; it shifts both ends left by `n` (usize subtraction,
saturating model; the verified call site never underflows). -/
def CharIndexRange.shiftLeft (r : CharIndexRange) (n : Nat) : CharIndexRange :=
  { start := r.start - n, stop := r.stop - n }

/-- The per-cursor range computation of `Editor::kill`
(`src/components/editor.rs:1109-1136`): given the current extended range, the
Next range under the active mode, the buffer text and the mode's contiguity,
returns `(delete_range, select_range)`.  The deleted range is replaced by the
empty rope and the selection is set to `select_range`. -/
def killRanges (isContiguous : Bool) (rope : Rope)
    (currentRange nextRange : CharIndexRange) : CharIndexRange × CharIndexRange :=
  let dflt := (currentRange,
    CharIndexRange.mk currentRange.start (currentRange.start + 1))
  if currentRange.stop > nextRange.start then dflt
  else
    let inbetweenText := sliceChars rope currentRange.stop nextRange.start
    if !(isBlank inbetweenText) && !isContiguous then dflt
    else
      let deleteRange := CharIndexRange.mk currentRange.start nextRange.start
      (deleteRange, nextRange.shiftLeft deleteRange.len)

/-- Claim C3's description of the same computation, formalised from the
claim's words: kill-next happens iff the mode is contiguous AND the text
between `C.end` and `N.start` is whitespace or empty; otherwise only `C` is
deleted and the character after `C.start` is selected. -/
def killRangesClaim (isContiguous : Bool) (rope : Rope)
    (currentRange nextRange : CharIndexRange) : CharIndexRange × CharIndexRange :=
  if isContiguous && isBlank (sliceChars rope currentRange.stop nextRange.start) then
    let deleteRange := CharIndexRange.mk currentRange.start nextRange.start
    (deleteRange, nextRange.shiftLeft deleteRange.len)
  else (currentRange, CharIndexRange.mk currentRange.start (currentRange.start + 1))

/-- The amended description of `killRanges`: kill-next happens iff the ranges
do not overlap (`C.end ≤ N.start`) and the gap is whitespace OR the mode is
contiguous; otherwise the default (delete `C`, select the char after
`C.start`). -/
def killRangesAmended (isContiguous : Bool) (rope : Rope)
    (currentRange nextRange : CharIndexRange) : CharIndexRange × CharIndexRange :=
  if currentRange.stop ≤ nextRange.start
      && (isBlank (sliceChars rope currentRange.stop nextRange.start) || isContiguous) then
    (CharIndexRange.mk currentRange.start nextRange.start,
      nextRange.shiftLeft (nextRange.start - currentRange.start))
  else (currentRange, CharIndexRange.mk currentRange.start (currentRange.start + 1))

/-! ## Paste (`src/components/editor.rs:1205-1236`) -/

/-- `Direction` as used by `Editor::paste`. -/
inductive Direction where
  | Start
  | End
  deriving DecidableEq, Repr

/-- The per-cursor action group built by `Editor::paste`
(`src/components/editor.rs:1208-1230`): a zero-width edit inserting the copied
text at the start or end of the current extended range, and a selection
spanning the inserted text.  The copied text is inserted verbatim. -/
def pasteActionGroup (direction : Direction) (selRange : CharIndexRange)
    (copiedText : Rope) : Edit × CharIndexRange :=
  let insertionRangeStart :=
    match direction with
    | Direction.Start => selRange.start
    | Direction.End => selRange.stop
  ({ start := insertionRangeStart, stop := insertionRangeStart, new := copiedText },
   CharIndexRange.mk insertionRangeStart (insertionRangeStart + lenChars copiedText))

/-- The text and selection produced by `Editor::paste` for a single cursor:
the action group's edit applied to the buffer text
(via `Buffer::apply_edit_transaction`), together with the new selection. -/
def pasteResult (text : Rope) (direction : Direction) (selRange : CharIndexRange)
    (copiedText : Rope) : Option (Rope × CharIndexRange) :=
  let p := pasteActionGroup direction selRange copiedText
  (applyEdit text p.1).map fun r => (r, p.2)

/-! ## LineTrimmed (`src/selection_mode/line_trimmed.rs`) -/

/-- `Buffer::line_to_byte` (via ropey `try_line_to_byte`): byte offset of the
start of line `l`; errs iff `l > len_lines`. -/
def lineToByte (r : Rope) (l : Nat) : Option Nat :=
  if l ≤ lenLines r then some (byteLen ((lines r).take l).flatten) else none

/-- `Buffer::get_line_by_line_index` (ropey `get_line`): `none` iff the index
is past the last line. -/
def getLineByLineIndex (r : Rope) (i : Nat) : Option Rope := (lines r).get? i

/-- `trim_leading_spaces` (`src/selection_mode/line_trimmed.rs:54-65`): for a
line that is exactly `"\n"` the start byte is returned unchanged; otherwise
the count of leading whitespace characters is added to the start byte.  Note
the `take_while(is_whitespace)` scan does not stop before the newline, and a
char count is added to a byte offset, exactly as in the source. -/
def trimLeadingSpaces (byteStart : Nat) (line : Rope) : Nat :=
  if line = ['\n'] then byteStart
  else byteStart + (line.takeWhile Char.isWhitespace).length

/-- `LineTrimmed::iter` (`src/selection_mode/line_trimmed.rs:18-51`): one byte
range per line, where the trailing synthetic line is dropped iff the text ends
with a newline; each line's range ends before its trailing newline and starts
at `trim_leading_spaces`. -/
def lineTrimmedIter (r : Rope) : List (Nat × Nat) :=
  let lenLines := lenLines r
  let takeCount := if endsWithNewline r then lenLines - 1 else lenLines
  ((List.range lenLines).take takeCount).filterMap fun lineIndex =>
    (getLineByLineIndex r lineIndex).bind fun line =>
      (lineToByte r lineIndex).map fun start =>
        let lenBytes := byteLen line
        let e := start + (if endsWithNewline line then lenBytes - 1 else lenBytes)
        let s := trimLeadingSpaces start line
        (s, e)

/-- Claim C6's description of the range yielded for a single line, formalised
from the claim's words: starting past the leading whitespace of the line's
content (the line without its trailing newline), ending before the trailing
newline; an empty line yields a zero-width range at line start. -/
def lineTrimmedRangeClaim (lineStartByte : Nat) (line : Rope) : Nat × Nat :=
  let content := if endsWithNewline line then line.dropLast else line
  (lineStartByte + (content.takeWhile Char.isWhitespace).length,
    lineStartByte + byteLen content)

/-! ## Position-to-char saturation claim (C8) -/

/-- The line at index `i` (last = `[]` out of range; in-range below). -/
def lineAt (r : Rope) (i : Nat) : Rope := (lines r).getD i []

/-- The char length of line `i` excluding its trailing newline — the "length
of that line" at which claim C8 says columns saturate. -/
def lineContentLen (r : Rope) (i : Nat) : Nat :=
  let l := lineAt r i
  if endsWithNewline l then l.length - 1 else l.length

/-- Claim C8's description of `Buffer::position_to_char`, formalised from the
claim's words: the char index of the character at
`min(column, length of that line)` from the line start. -/
def positionToCharClaim (r : Rope) (position : Position) : Option Nat :=
  (tryLineToChar r position.line).map fun lineStart =>
    lineStart + min position.column (lineContentLen r position.line)

/-! ## Exchange (`src/components/editor.rs:1820-1988`) -/

/-- The data of a tree-sitter node inspected by `get_valid_selection`: its
kind id and the length of its byte range. -/
structure NodeInfo where
  kindId : Nat
  byteRangeLen : Nat
  deriving DecidableEq, Repr

/-- The buffer/tree-sitter interface used by `Editor::get_valid_selection`,
abstracted over the concrete buffer, selection and transaction types.  Each
field models the named operation for the fixed mode, movement, cursor
direction, context and filters of one `exchange` invocation; `none` models a
returned `Err` (or, for `applyEditTransaction`, also a panic).  The concrete
implementations live in the tree-sitter crate and in repository files; the
loop below is translated from the source and is generic in them. -/
structure ExchangeCtx (Buf Sel Txn : Type) where
  /-- The borrowed buffer. -/
  buffer : Buf
  /-- `selection_mode.is_node()`. -/
  isNodeMode : Bool
  /-- `Selection::get_selection_` for the fixed movement: the movement target
  of a selection.  Movement saturation is returning the argument itself. -/
  getSelection : Sel → Option Sel
  /-- `get_actual_edit_transaction(current, next)` (a pure closure). -/
  getEditTransaction : Sel → Sel → Option Txn
  /-- `Buffer::apply_edit_transaction` on a clone of the buffer. -/
  applyEditTransaction : Buf → Txn → Option Buf
  /-- `Buffer::get_current_node(selection, false)`. -/
  getCurrentNode : Buf → Sel → Option NodeInfo
  /-- `edit_transaction.selections()`. -/
  selections : Txn → List Sel
  /-- `buffer.slice(&selection.extended_range())`. -/
  sliceExtendedRange : Sel → Option Rope
  /-- `new_buffer.has_syntax_error_at(edit_transaction.range())`. -/
  hasSyntaxErrorAtRange : Buf → Txn → Bool

/-- The retry loop of `Editor::get_valid_selection`
(`src/components/editor.rs:1851-1912`).  `fuel` bounds the number of
iterations; `none` at fuel 0 models non-termination of the source loop (the
source recurses forever if `apply_edit_transaction` keeps failing, and
otherwise advances the movement each iteration).  `Sum.inl current` models
`Either::Left(current_selection)` (no-op), `Sum.inr txn` models
`Either::Right(edit_transaction)` (the committed swap). -/
def getValidSelectionLoop {Buf Sel Txn : Type} [DecidableEq Sel]
    (ctx : ExchangeCtx Buf Sel Txn) (currentSelection : Sel) :
    Nat → Sel → Option (Sel ⊕ Txn)
  | 0, _ => none
  | fuel + 1, nextSelection =>
    (ctx.getEditTransaction currentSelection nextSelection).bind fun editTransaction =>
    (ctx.getCurrentNode ctx.buffer currentSelection).bind fun currentNode =>
    match ctx.applyEditTransaction ctx.buffer editTransaction with
    | none => getValidSelectionLoop ctx currentSelection fuel nextSelection
    | some newBuffer =>
      (ctx.sliceExtendedRange nextSelection).bind fun textAtNextSelection =>
      ((ctx.selections editTransaction).mapM (ctx.getCurrentNode newBuffer)).bind
        fun nextNodes =>
      if !ctx.isNodeMode
          || (!(isBlank textAtNextSelection)
              && nextNodes.all (fun nextNode =>
                  currentNode.kindId == nextNode.kindId
                    && currentNode.byteRangeLen == nextNode.byteRangeLen)
              && !(ctx.hasSyntaxErrorAtRange newBuffer editTransaction))
      then some (Sum.inr editTransaction)
      else
        (ctx.getSelection nextSelection).bind fun newSelection =>
          if nextSelection = newSelection then some (Sum.inl currentSelection)
          else getValidSelectionLoop ctx currentSelection fuel newSelection

/-- `Editor::get_valid_selection` (`src/components/editor.rs:1820-1913`):
compute the first movement target; if the movement is already saturated return
`Left(current_selection)`, otherwise run the validity loop. -/
def getValidSelection {Buf Sel Txn : Type} [DecidableEq Sel]
    (ctx : ExchangeCtx Buf Sel Txn) (fuel : Nat) (currentSelection : Sel) :
    Option (Sel ⊕ Txn) :=
  (ctx.getSelection currentSelection).bind fun nextSelection =>
    if nextSelection = currentSelection then some (Sum.inl currentSelection)
    else getValidSelectionLoop ctx currentSelection fuel nextSelection

/-- The transaction list committed by `Editor::replace_faultlessly`
(`src/components/editor.rs:1962-1978`): one `get_valid_selection` per cursor;
`Err` results and `Left` (no-op) results are filtered out, the rest are merged
into the transaction it applies.  An empty list means `exchange` applies an
empty merged transaction, i.e. is a no-op. -/
def replaceFaultlesslyTransactions {Buf Sel Txn : Type} [DecidableEq Sel]
    (ctx : ExchangeCtx Buf Sel Txn) (fuel : Nat) (sels : List Sel) : List Txn :=
  (sels.map (getValidSelection ctx fuel)).filterMap fun r =>
    match r with
    | some (Sum.inr t) => some t
    | _ => none

/-- A small concrete `ExchangeCtx` instance (over `Nat` buffers, selections
and transactions) exercising the commit path of `get_valid_selection`. -/
def exchangeCtxExample : ExchangeCtx Nat Nat Nat where
  buffer := 0
  isNodeMode := true
  getSelection := fun s => some (s + 1)
  getEditTransaction := fun _ n => some n
  applyEditTransaction := fun b _ => some (b + 1)
  getCurrentNode := fun _ _ => some (NodeInfo.mk 5 7)
  selections := fun _ => [2]
  sliceExtendedRange := fun _ => some ['x']
  hasSyntaxErrorAtRange := fun _ _ => false

/-- A concrete `ExchangeCtx` instance whose movement is saturated everywhere
(`getSelection` returns its argument), exercising the no-op path. -/
def exchangeCtxSaturated : ExchangeCtx Nat Nat Nat where
  buffer := 0
  isNodeMode := true
  getSelection := fun s => some s
  getEditTransaction := fun _ n => some n
  applyEditTransaction := fun b _ => some b
  getCurrentNode := fun _ _ => some (NodeInfo.mk 1 1)
  selections := fun _ => []
  sliceExtendedRange := fun _ => some ['x']
  hasSyntaxErrorAtRange := fun _ _ => false

/-! ## Basic lemmas about the rope model -/

theorem lines_ne_nil (r : Rope) : lines r ≠ [] := by
  cases r with
  | nil => simp [lines]
  | cons ch rest =>
    simp only [lines]
    split
    · simp
    · cases h : lines rest with
      | nil => simp
      | cons l ls => simp

theorem lines_flatten (r : Rope) : (lines r).flatten = r := by
  induction r with
  | nil => simp [lines]
  | cons ch rest ih =>
    simp only [lines]
    split
    · simp_all
    · cases h : lines rest with
      | nil => exact absurd h (lines_ne_nil rest)
      | cons l ls =>
        rw [h] at ih
        simp_all

theorem lines_cons_newline (rest : Rope) : lines ('\n' :: rest) = ['\n'] :: lines rest := by
  simp [lines]

theorem lines_cons_other {ch : Char} (hch : ch ≠ '\n') (rest : Rope) {l : Rope}
    {ls : List Rope} (h : lines rest = l :: ls) : lines (ch :: rest) = (ch :: l) :: ls := by
  simp [lines, hch, h]

theorem lineToChar_zero (r : Rope) : lineToChar r 0 = 0 := by simp [lineToChar]

theorem lineToChar_cons_newline (rest : Rope) (l : Nat) :
    lineToChar ('\n' :: rest) (l + 1) = 1 + lineToChar rest l := by
  simp [lineToChar, lines_cons_newline, List.take_succ_cons]

theorem lineToChar_cons_other {ch : Char} (hch : ch ≠ '\n') (rest : Rope) (l : Nat) :
    lineToChar (ch :: rest) (l + 1) = 1 + lineToChar rest (l + 1) := by
  obtain ⟨l₀, ls, hls⟩ : ∃ l₀ ls, lines rest = l₀ :: ls := by
    cases h : lines rest with
    | nil => exact absurd h (lines_ne_nil rest)
    | cons a b => exact ⟨a, b, rfl⟩
  rw [lineToChar, lineToChar, lines_cons_other hch rest hls, hls,
    List.take_succ_cons, List.take_succ_cons]
  simp only [List.map_cons, List.sum_cons, List.length_cons]
  omega

theorem charToLine_cons_succ (ch : Char) (rest : Rope) (c : Nat) :
    charToLine (ch :: rest) (c + 1)
      = charToLine rest c + (if ch = '\n' then 1 else 0) := by
  by_cases hch : ch = '\n' <;> simp [charToLine, List.count_cons, hch]

theorem lenLines_eq_count_add_one (r : Rope) : lenLines r = r.count '\n' + 1 := by
  induction r with
  | nil => simp [lenLines, lines, List.count]
  | cons ch rest ih =>
    simp only [lenLines, lines] at *
    split
    · rename_i hch
      simp [List.count_cons, hch, ih]
    · rename_i hch
      cases h : lines rest with
      | nil => exact absurd h (lines_ne_nil rest)
      | cons l ls =>
        rw [h] at ih
        simp only [List.length_cons] at ih ⊢
        rw [List.count_cons]
        simp [hch, ih]

theorem charToLine_le (r : Rope) (c : Nat) : charToLine r c ≤ r.count '\n' := by
  unfold charToLine
  exact List.Sublist.count_le (List.take_sublist c r) '\n'

theorem charToLine_lt_lenLines (r : Rope) (c : Nat) : charToLine r c < lenLines r := by
  rw [lenLines_eq_count_add_one]
  exact Nat.lt_succ_of_le (charToLine_le r c)

/-- The start of the line containing char `c` is at or before `c`. -/
theorem lineToChar_charToLine_le (r : Rope) (c : Nat) (hc : c ≤ lenChars r) :
    lineToChar r (charToLine r c) ≤ c := by
  induction r generalizing c with
  | nil =>
    have h0 : c = 0 := by simpa [lenChars] using hc
    subst h0
    simp [lineToChar, charToLine]
  | cons ch rest ih =>
    cases c with
    | zero => simp [lineToChar, charToLine]
    | succ c =>
      have hc' : c ≤ lenChars rest := by
        simpa [lenChars] using hc
      rw [charToLine_cons_succ]
      by_cases hch : ch = '\n'
      · subst hch
        rw [if_pos rfl, lineToChar_cons_newline]
        have := ih c hc'
        omega
      · rw [if_neg hch, Nat.add_zero]
        cases hL : charToLine rest c with
        | zero => simp [lineToChar_zero]
        | succ k =>
          rw [lineToChar_cons_other hch]
          have := ih c hc'
          rw [hL] at this
          omega

theorem byteToChar_charToByte (r : Rope) (c : Nat) (hc : c ≤ lenChars r) :
    byteToChar r (charToByte r c) = c := by
  induction r generalizing c with
  | nil =>
    have h0 : c = 0 := by simpa [lenChars] using hc
    subst h0
    simp [byteToChar, charToByte, byteLen]
  | cons ch rest ih =>
    cases c with
    | zero =>
      simp only [charToByte, List.take_zero, byteLen, List.map_nil, List.sum_nil, byteToChar]
      have := Char.utf8Size_pos ch
      simp [this]
    | succ c =>
      have hc' : c ≤ lenChars rest := by simpa [lenChars] using hc
      have hcb : charToByte (ch :: rest) (c + 1) = ch.utf8Size + charToByte rest c := by
        simp [charToByte, byteLen, List.take_succ_cons]
      rw [hcb]
      simp only [byteToChar]
      have hpos := Char.utf8Size_pos ch
      rw [if_neg (by omega)]
      have hsub : ch.utf8Size + charToByte rest c - ch.utf8Size = charToByte rest c := by omega
      rw [hsub, ih c hc']

theorem charToByte_le_byteLen (r : Rope) (c : Nat) : charToByte r c ≤ byteLen r := by
  unfold charToByte byteLen
  conv_rhs => rw [← List.take_append_drop c r]
  rw [List.map_append, List.sum_append]
  exact Nat.le_add_right _ _

/-- **C7.** For every char index `c ∈ [0, len_chars]` of the current text,
`byte_to_char(char_to_byte(c)) = c` and
`position_to_char(char_to_position(c)) = c`. -/
theorem C7_char_byte_and_position_roundtrip (r : Rope) (c : Nat) (hc : c ≤ lenChars r) :
    (Buffer.charToByte r c).bind (Buffer.byteToChar r) = some c ∧
    (Buffer.charToPosition r c).bind (Buffer.positionToChar r) = some c := by
  constructor
  · rw [Buffer.charToByte, tryCharToByte, if_pos hc]
    rw [Option.some_bind, Buffer.byteToChar, tryByteToChar,
      if_pos (charToByte_le_byteLen r c), byteToChar_charToByte r c hc]
  · have hline : charToLine r c < lenLines r := charToLine_lt_lenLines r c
    have hle : lineToChar r (charToLine r c) ≤ c := lineToChar_charToLine_le r c hc
    simp only [Buffer.charToPosition, Buffer.charToLine, tryCharToLine, if_pos hc,
      Option.map_some', Option.some_bind, Buffer.positionToChar, tryLineToChar,
      if_pos (Nat.le_of_lt hline)]
    congr 1
    omega

/-- Witness for C7 at the concrete text `"a\nb"` and char index 2. -/
theorem C7_witness :
    (Buffer.charToByte ['a', '\n', 'b'] 2).bind (Buffer.byteToChar ['a', '\n', 'b'])
        = some 2 ∧
    (Buffer.charToPosition ['a', '\n', 'b'] 2).bind
        (Buffer.positionToChar ['a', '\n', 'b']) = some 2 :=
  C7_char_byte_and_position_roundtrip ['a', '\n', 'b'] 2 (by decide)

/-- **C8 counterexample.** On text `"ab\ncd"`, `position_to_char (0, 10)`
returns char index 10 — past the line (of content length 2) and even past the
whole 5-char text — while the claimed saturation would give char index 2.  The
claim, as stated, is therefore false at this input. -/
theorem C8_counterexample :
    Buffer.positionToChar ['a', 'b', '\n', 'c', 'd'] { line := 0, column := 10 }
        = some 10 ∧
    positionToCharClaim ['a', 'b', '\n', 'c', 'd'] { line := 0, column := 10 }
        = some 2 ∧
    lenChars ['a', 'b', '\n', 'c', 'd'] = 5 ∧ ¬ (10 : Nat) ≤ 5 := by
  refine ⟨by decide, by decide, by decide, by decide⟩

/-- **C8 (amended).** `position_to_char` does not clamp the column: for every
valid line index it returns `line_start + column` unchanged, which can lie
beyond the line and beyond the buffer; it agrees with the claimed saturating
behaviour exactly when the column is at most the line's length. -/
theorem C8_amended_no_saturation (r : Rope) (line column : Nat)
    (h : line ≤ lenLines r) :
    Buffer.positionToChar r { line := line, column := column }
        = some (lineToChar r line + column) ∧
    (Buffer.positionToChar r { line := line, column := column }
        = positionToCharClaim r { line := line, column := column }
      ↔ column ≤ lineContentLen r line) := by
  constructor
  · simp [Buffer.positionToChar, tryLineToChar, if_pos h]
  · simp only [Buffer.positionToChar, positionToCharClaim, tryLineToChar, if_pos h,
      Option.map_some', Option.some_inj]
    constructor
    · intro heq
      have := Nat.min_le_right column (lineContentLen r line)
      omega
    · intro hle
      rw [Nat.min_eq_left hle]

/-- Witness for the amended C8 at text `"ab\ncd"`, line 0, column 10. -/
theorem C8_witness :
    Buffer.positionToChar ['a', 'b', '\n', 'c', 'd'] { line := 0, column := 10 }
        = some (lineToChar ['a', 'b', '\n', 'c', 'd'] 0 + 10) ∧
    (Buffer.positionToChar ['a', 'b', '\n', 'c', 'd'] { line := 0, column := 10 }
        = positionToCharClaim ['a', 'b', '\n', 'c', 'd'] { line := 0, column := 10 }
      ↔ 10 ≤ lineContentLen ['a', 'b', '\n', 'c', 'd'] 0) :=
  C8_amended_no_saturation ['a', 'b', '\n', 'c', 'd'] 0 10 (by decide)

theorem applyEdit_eq (r : Rope) (e : Edit) :
    applyEdit r e =
      if e.start ≤ e.stop ∧ e.stop ≤ lenChars r then
        some (r.take e.start ++ e.new ++ r.drop e.stop)
      else none := by
  unfold applyEdit tryRemove tryInsert
  split
  · rename_i h
    rw [Option.some_bind]
    have hslen : (r.take e.start).length = e.start := by
      rw [List.length_take]
      unfold lenChars at h
      omega
    have hlen : e.start ≤ lenChars (r.take e.start ++ r.drop e.stop) := by
      unfold lenChars
      rw [List.length_append, hslen]
      exact Nat.le_add_right _ _
    rw [if_pos hlen, List.take_append_of_le_length (by rw [hslen]),
      List.take_take, Nat.min_self, List.drop_left' hslen]
  · rfl

theorem applyEdits_eq_none_iff (es : List Edit) :
    ∀ r : Rope, (applyEdits r es = none ↔ editsInBounds r es = false) := by
  induction es with
  | nil => intro r; simp [applyEdits, editsInBounds]
  | cons e es ih =>
    intro r
    rw [applyEdits, editsInBounds, applyEdit_eq]
    by_cases h : e.start ≤ e.stop ∧ e.stop ≤ lenChars r
    · rw [if_pos h, Option.some_bind, ih]
      simp [h.1, h.2]
    · rw [if_neg h, Option.none_bind]
      rw [Decidable.not_and_iff_or_not] at h
      rcases h with h | h <;> simp [h]

/-- **C2 counterexample.** On the 3-char buffer `"abc"` a transaction whose
edit range `4..5` is out of bounds makes `apply_edit_transaction` hit the
ropey panic (modelled by `none`): the source contains no bounds check and no
error-rejection path that would leave the buffer unchanged, so the claim is
false at this input.  The second conjunct is a transaction whose first edit
is valid and whose second is out of bounds: the rope is mutated by the first
edit before the panic, so the behaviour is not all-or-nothing either. -/
theorem C2_counterexample :
    Buffer.applyEditTransaction (σ := Nat)
        (Buffer.mk ['a', 'b', 'c'] [] [])
        [Edit.mk 4 5 []] 0 = none ∧
    Buffer.applyEditTransaction (σ := Nat)
        (Buffer.mk ['a', 'b', 'c'] [] [])
        [Edit.mk 0 1 ['z'], Edit.mk 7 8 []] 0 = none := by
  refine ⟨by decide, by decide⟩

/-- **C2 (amended).** `apply_edit_transaction` never rejects a transaction
with an error and is not all-or-nothing: it succeeds exactly when every edit,
applied sequentially, has a well-formed range inside the then-current rope,
and otherwise the underlying rope operation panics (modelled by `none`) after
the earlier edits of the transaction have already mutated the rope. -/
theorem C2_amended_no_bounds_rejection {σ : Type} (b : Buffer σ) (t : EditTransaction)
    (ss : σ) :
    b.applyEditTransaction t ss = none ↔ editsInBounds b.rope t = false := by
  unfold Buffer.applyEditTransaction
  rw [Option.map_eq_none']
  exact applyEdits_eq_none_iff t b.rope

/-- **C1.** For every transaction applied to a buffer `B` yielding `B'` whose
text differs from `B`'s, `undo(B')` restores `B`'s text and returns the
selection set recorded when the transaction was applied, and `redo` after that
undo restores `B'`'s text and returns the selection set that was current at
the undo (`B'`'s selections, in the editor flow). -/
theorem C1_undo_redo_roundtrip {σ : Type} (b : Buffer σ) (t : EditTransaction) (ss : σ)
    (b' : Buffer σ) (happly : b.applyEditTransaction t ss = some b')
    (hchanged : b'.rope ≠ b.rope) (ss₁ : σ) :
    ∃ b₁, b'.undo ss₁ = some (b₁, some ss) ∧ b₁.rope = b.rope ∧
      ∀ ss₂, ∃ b₂, b₁.redo ss₂ = some (b₂, some ss₁) ∧ b₂.rope = b'.rope := by
  obtain ⟨r, hr, hb'⟩ := Option.map_eq_some'.mp happly
  by_cases hg : b.rope = r
  · exfalso
    apply hchanged
    rw [← hb']
    simp [Buffer.addUndoPatch, hg]
  · have hb'2 : b' = Buffer.mk r
        (Patch.mk ss (diffyCreatePatch r b.rope) :: b.undo_patch) [] := by
      rw [← hb']
      simp [Buffer.addUndoPatch, hg]
    refine ⟨Buffer.mk b.rope b.undo_patch
        [Patch.mk ss₁ (diffyCreatePatch b.rope r)], ?_, rfl, ?_⟩
    · rw [hb'2]
      simp [Buffer.undo, Buffer.revertChange, diffyApply, diffyCreatePatch]
    · intro ss₂
      refine ⟨Buffer.mk r
          (Patch.mk ss₂ (diffyCreatePatch r b.rope) :: b.undo_patch) [], ?_, ?_⟩
      · simp [Buffer.redo, Buffer.revertChange, diffyApply, diffyCreatePatch]
      · rw [hb'2]

/-- Witness for C1: buffer `"a"` with empty history, a transaction replacing
the whole text by `"b"`, selection sets 7 (at apply) and 8 (at undo). -/
theorem C1_witness :
    ∃ b₁, Buffer.undo (σ := Nat)
        (Buffer.mk ['b'] [Patch.mk 7 (diffyCreatePatch ['b'] ['a'])] []) 8
          = some (b₁, some 7) ∧
      b₁.rope = ['a'] ∧
      ∀ ss₂, ∃ b₂, b₁.redo ss₂ = some (b₂, some 8) ∧
        b₂.rope = Buffer.rope (σ := Nat)
          (Buffer.mk ['b'] [Patch.mk 7 (diffyCreatePatch ['b'] ['a'])] []) :=
  C1_undo_redo_roundtrip
    (Buffer.mk ['a'] [] []) [Edit.mk 0 1 ['b']] 7
    (Buffer.mk ['b'] [Patch.mk 7 (diffyCreatePatch ['b'] ['a'])] [])
    (by decide) (by decide) 8

/-- **C10.** A transaction whose application leaves the text identical to the
pre-transaction text pushes no undo patch and leaves the redo stack intact. -/
theorem C10_noop_transaction_preserves_history {σ : Type} (b : Buffer σ)
    (t : EditTransaction) (ss : σ) (b' : Buffer σ)
    (happly : b.applyEditTransaction t ss = some b') (hnoop : b'.rope = b.rope) :
    b'.undo_patch = b.undo_patch ∧ b'.redo_patches = b.redo_patches := by
  obtain ⟨r, hr, hb'⟩ := Option.map_eq_some'.mp happly
  by_cases hg : b.rope = r
  · rw [← hb']
    simp [Buffer.addUndoPatch, hg]
  · exfalso
    apply hg
    rw [← hb'] at hnoop
    simp [Buffer.addUndoPatch, hg] at hnoop
    exact hnoop.symm

/-- Witness for C10: buffer `"ab"` with non-empty history; the transaction
replaces char 0 with the identical text `"a"`, so both stacks survive. -/
theorem C10_witness :
    Buffer.undo_patch (σ := Nat)
        (Buffer.mk ['a', 'b'] [Patch.mk 9 (diffyCreatePatch ['x'] ['y'])]
          [Patch.mk 3 (diffyCreatePatch ['p'] ['q'])])
      = [Patch.mk 9 (diffyCreatePatch ['x'] ['y'])] ∧
    Buffer.redo_patches (σ := Nat)
        (Buffer.mk ['a', 'b'] [Patch.mk 9 (diffyCreatePatch ['x'] ['y'])]
          [Patch.mk 3 (diffyCreatePatch ['p'] ['q'])])
      = [Patch.mk 3 (diffyCreatePatch ['p'] ['q'])] :=
  C10_noop_transaction_preserves_history
    (Buffer.mk ['a', 'b'] [Patch.mk 9 (diffyCreatePatch ['x'] ['y'])]
      [Patch.mk 3 (diffyCreatePatch ['p'] ['q'])])
    [Edit.mk 0 1 ['a']] 4
    (Buffer.mk ['a', 'b'] [Patch.mk 9 (diffyCreatePatch ['x'] ['y'])]
      [Patch.mk 3 (diffyCreatePatch ['p'] ['q'])])
    (by decide) (by decide)

/-- **C9 counterexample.** A buffer with current text `"q"` whose top undo
patch was created from text `"x"` (its diff does not apply cleanly to `"q"`):
`undo` hits the `.unwrap()` panic in `revert_change` (modelled by `none`)
instead of returning an error result (`PatchApplyFailed`) with the text
unchanged, so the claim is false at this input. -/
theorem C9_counterexample :
    Buffer.undo (σ := Nat)
        (Buffer.mk ['q'] [Patch.mk 0 (diffyCreatePatch ['x'] ['y'])] []) 1 = none := by
  decide

/-- **C9 (amended).** `undo` and `redo` panic (via the `.unwrap()` in
`revert_change`, modelled by `none`) exactly when the top patch's diff does
not apply to the current text; when it does apply, the text is replaced by the
patch's recorded pre-state and the patch's selection set is returned. -/
theorem C9_amended_unwrap_panics {σ : Type} (b : Buffer σ) (p : Patch σ)
    (rest : List (Patch σ)) (css : σ) :
    (b.undo_patch = p :: rest →
      ((b.undo css = none ↔ b.rope ≠ p.patch.fromText) ∧
        (b.rope = p.patch.fromText →
          ∃ b₁, b.undo css = some (b₁, some p.selection_set) ∧
            b₁.rope = p.patch.toText))) ∧
    (b.redo_patches = p :: rest →
      ((b.redo css = none ↔ b.rope ≠ p.patch.fromText) ∧
        (b.rope = p.patch.fromText →
          ∃ b₁, b.redo css = some (b₁, some p.selection_set) ∧
            b₁.rope = p.patch.toText))) := by
  constructor
  · intro h
    unfold Buffer.undo
    rw [h]
    constructor
    · by_cases hm : b.rope = p.patch.fromText
      · simp [Buffer.revertChange, diffyApply, hm]
      · simp [Buffer.revertChange, diffyApply, hm]
    · intro hm
      refine ⟨Buffer.mk p.patch.toText rest
        (Patch.mk css (diffyCreatePatch p.patch.toText b.rope) :: b.redo_patches),
        ?_, rfl⟩
      simp [Buffer.revertChange, diffyApply, hm]
  · intro h
    unfold Buffer.redo
    rw [h]
    constructor
    · by_cases hm : b.rope = p.patch.fromText
      · simp [Buffer.revertChange, diffyApply, hm]
      · simp [Buffer.revertChange, diffyApply, hm]
    · intro hm
      refine ⟨Buffer.mk p.patch.toText
        (Patch.mk css (diffyCreatePatch p.patch.toText b.rope) :: b.undo_patch) rest,
        ?_, rfl⟩
      simp [Buffer.revertChange, diffyApply, hm]

/-- Witness for the amended C9, at the concrete buffer of the counterexample
(mismatching patch) for the undo half. -/
theorem C9_witness :
    (Buffer.undo (σ := Nat)
          (Buffer.mk ['q'] [Patch.mk 0 (diffyCreatePatch ['x'] ['y'])] []) 1 = none
        ↔ Buffer.rope (σ := Nat)
            (Buffer.mk ['q'] [Patch.mk 0 (diffyCreatePatch ['x'] ['y'])] [])
          ≠ ['x']) ∧
    (Buffer.rope (σ := Nat)
          (Buffer.mk ['q'] [Patch.mk 0 (diffyCreatePatch ['x'] ['y'])] []) = ['x'] →
      ∃ b₁, Buffer.undo (σ := Nat)
          (Buffer.mk ['q'] [Patch.mk 0 (diffyCreatePatch ['x'] ['y'])] []) 1
        = some (b₁, some 0) ∧ b₁.rope = ['y']) :=
  (C9_amended_unwrap_panics
    (Buffer.mk ['q'] [Patch.mk 0 (diffyCreatePatch ['x'] ['y'])] [])
    (Patch.mk 0 (diffyCreatePatch ['x'] ['y'])) [] 1).1 rfl

/-- **C3 counterexample.** Text `"foo bar"`, a non-contiguous mode, current
extended range `C = [0,3)` (`foo`) and next range `N = [4,7)` (`bar`): the gap
`[3,4)` is a single space, i.e. whitespace.  The claim says a non-contiguous
mode deletes only `C` and selects the char after `C.start`, but `kill`
performs the kill-next: it deletes `[0,4)` and selects the shifted `N`.
Second conjunct: with a contiguous mode and the non-whitespace gap `","` (text
`"fn main(a:A,b:B)"` with `C` = `a:A`, `N` = `b:B`), the claim says delete
only `C`, but the code again kills through the gap. -/
theorem C3_counterexample :
    (killRanges false ['f', 'o', 'o', ' ', 'b', 'a', 'r']
        (CharIndexRange.mk 0 3) (CharIndexRange.mk 4 7)
      = (CharIndexRange.mk 0 4, CharIndexRange.mk 0 3) ∧
     killRangesClaim false ['f', 'o', 'o', ' ', 'b', 'a', 'r']
        (CharIndexRange.mk 0 3) (CharIndexRange.mk 4 7)
      = (CharIndexRange.mk 0 3, CharIndexRange.mk 0 1) ∧
     (CharIndexRange.mk 0 4, CharIndexRange.mk 0 3)
      ≠ (CharIndexRange.mk 0 3, CharIndexRange.mk 0 1)) ∧
    (killRanges true
        ['f', 'n', ' ', 'm', 'a', 'i', 'n', '(', 'a', ':', 'A', ',', 'b', ':', 'B', ')']
        (CharIndexRange.mk 8 11) (CharIndexRange.mk 12 15)
      = (CharIndexRange.mk 8 12, CharIndexRange.mk 8 11) ∧
     killRangesClaim true
        ['f', 'n', ' ', 'm', 'a', 'i', 'n', '(', 'a', ':', 'A', ',', 'b', ':', 'B', ')']
        (CharIndexRange.mk 8 11) (CharIndexRange.mk 12 15)
      = (CharIndexRange.mk 8 11, CharIndexRange.mk 8 9)) := by
  refine ⟨⟨by decide, by decide, by decide⟩, by decide, by decide⟩

/-- **C3 (amended).** `kill` performs the kill-next (delete `[C.start,
N.start)` and select the shifted `N`) iff `C.end ≤ N.start` and (the gap text
is whitespace/empty **or** the mode is contiguous); in every other case
(overlapping ranges, or a non-contiguous mode with a non-whitespace gap) it
deletes only `C` and selects the character immediately after `C.start`. -/
theorem C3_amended_kill_characterisation (isContiguous : Bool) (rope : Rope)
    (c n : CharIndexRange) :
    killRanges isContiguous rope c n = killRangesAmended isContiguous rope c n := by
  unfold killRanges killRangesAmended CharIndexRange.len
  by_cases hA : n.start < c.stop
  · have hnle : ¬ (c.stop ≤ n.start) := by omega
    simp [hA, hnle]
  · have hle : c.stop ≤ n.start := by omega
    cases hB : isBlank (sliceChars rope c.stop n.start) <;>
      cases isContiguous <;> simp [hA, hle, hB]

/-- **C5.** Evaluating `Editor::paste` at the failing input of the repo's own
`smart_paste` test (`src/components/test_editor.rs:818-835`): text
`fn main(a:A, b:B) {}` (braces written `\x7b\x7d`), selection `a:A` at chars
`[8,11)`, clipboard `c:C`, `Paste(End)`.  The code inserts the clipboard text
verbatim at the selection's end, producing `fn main(a:Ac:C, b:B) {}` with
selection `[11,14)` — not the separator-inserting result
`fn main(a:A, c:C, b:B) {}` that the test (and the claim) expect. -/
theorem C5_paste_is_verbatim_not_smart :
    pasteResult
        ['f', 'n', ' ', 'm', 'a', 'i', 'n', '(', 'a', ':', 'A', ',', ' ',
         'b', ':', 'B', ')', ' ', '\x7b', '\x7d']
        Direction.End (CharIndexRange.mk 8 11) ['c', ':', 'C']
      = some
        (['f', 'n', ' ', 'm', 'a', 'i', 'n', '(', 'a', ':', 'A', 'c', ':', 'C', ',',
          ' ', 'b', ':', 'B', ')', ' ', '\x7b', '\x7d'],
         CharIndexRange.mk 11 14) ∧
    (['f', 'n', ' ', 'm', 'a', 'i', 'n', '(', 'a', ':', 'A', 'c', ':', 'C', ',',
      ' ', 'b', ':', 'B', ')', ' ', '\x7b', '\x7d'] : Rope)
      ≠ ['f', 'n', ' ', 'm', 'a', 'i', 'n', '(', 'a', ':', 'A', ',', ' ', 'c', ':',
         'C', ',', ' ', 'b', ':', 'B', ')', ' ', '\x7b', '\x7d'] := by
  refine ⟨by decide, by decide⟩

/-- **C6 counterexample.** On the text `" \n"` (one whitespace-only line plus
the synthetic trailing line), `LineTrimmed::iter` yields the single byte range
`(2, 1)`: `trim_leading_spaces` counts the newline itself as leading
whitespace, so the range starts *after* its own end (a reversed range), while
the claim's description — start past the line's leading whitespace, end
before the trailing newline — yields `(1, 1)`.  The claim is false at this
input. -/
theorem C6_counterexample :
    lineTrimmedIter [' ', '\n'] = [(2, 1)] ∧
    lineTrimmedRangeClaim 0 [' ', '\n'] = (1, 1) ∧
    ((2, 1) : Nat × Nat) ≠ (1, 1) ∧ ¬ (2 : Nat) ≤ 1 := by
  refine ⟨by decide, by decide, by decide, by decide⟩

theorem filterMap_eq_map_of_forall {α β : Type} (l : List α) (f : α → Option β)
    (g : α → β) (h : ∀ x ∈ l, f x = some (g x)) : l.filterMap f = l.map g := by
  induction l with
  | nil => rfl
  | cons a l ih =>
    rw [List.filterMap_cons, h a (List.mem_cons_self a l), List.map_cons,
      ih fun x hx => h x (List.mem_cons_of_mem a hx)]

/-- **C6 (amended).** `LineTrimmed::iter` yields exactly one range per line,
dropping the trailing synthetic empty line iff the text ends with `'\n'`; a
line that is exactly `"\n"` yields a zero-width range at line start; every
other line yields the range from `lineStart + (number of leading whitespace
characters, where the scan runs through the trailing newline of a
whitespace-only line)` to `lineStart + (byte length of the line excluding its
trailing newline)` — so for a whitespace-only line ending in `'\n'` the start
exceeds the end. -/
theorem C6_amended_line_trimmed_characterisation (r : Rope) :
    lineTrimmedIter r =
      (List.range (if endsWithNewline r then lenLines r - 1 else lenLines r)).map
        fun i =>
          (trimLeadingSpaces (byteLen ((lines r).take i).flatten) ((lines r).getD i []),
            byteLen ((lines r).take i).flatten
              + (if endsWithNewline ((lines r).getD i []) then
                    byteLen ((lines r).getD i []) - 1
                  else byteLen ((lines r).getD i []))) := by
  unfold lineTrimmedIter
  dsimp only
  have htc : (if endsWithNewline r then lenLines r - 1 else lenLines r) ≤ lenLines r := by
    split <;> omega
  rw [List.take_range, Nat.min_eq_left htc]
  apply filterMap_eq_map_of_forall
  intro i hi
  have hlt : i < lenLines r := Nat.lt_of_lt_of_le (List.mem_range.mp hi) htc
  have hlen : i < (lines r).length := by simpa [lenLines] using hlt
  have hq : (lines r).get? i = some ((lines r).getD i []) := by
    cases hx : (lines r).get? i with
    | none =>
      rw [List.get?_eq_none] at hx
      omega
    | some line =>
      have hx2 : (lines r)[i]? = some line := by
        rw [← List.get?_eq_getElem?]
        exact hx
      rw [List.getD_eq_getElem?_getD, hx2]
      rfl
  rw [getLineByLineIndex, hq, Option.some_bind, lineToByte, if_pos (Nat.le_of_lt hlt),
    Option.map_some']

theorem getValidSelectionLoop_inr {Buf Sel Txn : Type} [DecidableEq Sel]
    (ctx : ExchangeCtx Buf Sel Txn) (cur : Sel) (hnode : ctx.isNodeMode = true) :
    ∀ (fuel : Nat) (next : Sel) (txn : Txn),
      getValidSelectionLoop ctx cur fuel next = some (Sum.inr txn) →
      ∃ currentNode newBuffer nextNodes,
        ctx.getCurrentNode ctx.buffer cur = some currentNode ∧
        ctx.applyEditTransaction ctx.buffer txn = some newBuffer ∧
        (ctx.selections txn).mapM (ctx.getCurrentNode newBuffer) = some nextNodes ∧
        (∀ n ∈ nextNodes, n.kindId = currentNode.kindId ∧
          n.byteRangeLen = currentNode.byteRangeLen) ∧
        ctx.hasSyntaxErrorAtRange newBuffer txn = false := by
  intro fuel
  induction fuel with
  | zero => intro next txn h; exact absurd h (by simp [getValidSelectionLoop])
  | succ fuel ih =>
    intro next txn h
    rw [getValidSelectionLoop] at h
    cases het : ctx.getEditTransaction cur next with
    | none => rw [het, Option.none_bind] at h; exact absurd h (by simp)
    | some et =>
      rw [het, Option.some_bind] at h
      cases hcn : ctx.getCurrentNode ctx.buffer cur with
      | none => rw [hcn, Option.none_bind] at h; exact absurd h (by simp)
      | some cn =>
        rw [hcn, Option.some_bind] at h
        cases hap : ctx.applyEditTransaction ctx.buffer et with
        | none =>
          rw [hap] at h
          dsimp only at h
          rw [← hcn]
          exact ih next txn h
        | some nb =>
          rw [hap] at h
          dsimp only at h
          cases hsl : ctx.sliceExtendedRange next with
          | none => rw [hsl, Option.none_bind] at h; exact absurd h (by simp)
          | some txt =>
            rw [hsl, Option.some_bind] at h
            cases hmm : (ctx.selections et).mapM (ctx.getCurrentNode nb) with
            | none => rw [hmm, Option.none_bind] at h; exact absurd h (by simp)
            | some nodes =>
              rw [hmm, Option.some_bind] at h
              by_cases hcond : (!ctx.isNodeMode
                  || (!(isBlank txt)
                      && nodes.all (fun nextNode =>
                          cn.kindId == nextNode.kindId
                            && cn.byteRangeLen == nextNode.byteRangeLen)
                      && !(ctx.hasSyntaxErrorAtRange nb et))) = true
              · rw [if_pos hcond] at h
                have het2 : et = txn := by
                  have h2 := Option.some_inj.mp h
                  exact Sum.inr_injective h2
                subst het2
                rw [hnode] at hcond
                simp only [Bool.not_true, Bool.false_or, Bool.and_eq_true,
                  List.all_eq_true, Bool.not_eq_true', beq_iff_eq] at hcond
                obtain ⟨⟨hblank, hall⟩, herr⟩ := hcond
                refine ⟨cn, nb, nodes, rfl, hap, hmm, ?_, herr⟩
                intro n hn
                obtain ⟨h1, h2⟩ := hall n hn
                exact ⟨h1.symm, h2.symm⟩
              · rw [if_neg hcond] at h
                cases hgs : ctx.getSelection next with
                | none => rw [hgs, Option.none_bind] at h; exact absurd h (by simp)
                | some newSel =>
                  rw [hgs, Option.some_bind] at h
                  by_cases heq : next = newSel
                  · rw [if_pos heq] at h
                    exact absurd (Option.some_inj.mp h) (by simp)
                  · rw [if_neg heq] at h
                    rw [← hcn]
                    exact ih newSel txn h

/-- **C4.** For node-based selection modes, `exchange` only commits a swap
that passed the validity checks: the current cursor's surrounding node (from
before the swap) and every new surrounding node at the transaction's
selections (in the tentatively swapped buffer) have the same tree-sitter kind
id and identical byte-range length, and the swapped buffer has no syntax
error within the transaction's covered byte range.  (The loop advances the
movement one step and retries whenever a tentative swap fails these checks.)
Moreover, when the movement is saturated, `replace_faultlessly` collects no
transaction for any cursor, so `exchange` is a no-op. -/
theorem C4_exchange_structure_preservation {Buf Sel Txn : Type} [DecidableEq Sel]
    (ctx : ExchangeCtx Buf Sel Txn) :
    (∀ (fuel : Nat) (cur : Sel) (txn : Txn),
        ctx.isNodeMode = true →
        getValidSelection ctx fuel cur = some (Sum.inr txn) →
        ∃ currentNode newBuffer nextNodes,
          ctx.getCurrentNode ctx.buffer cur = some currentNode ∧
          ctx.applyEditTransaction ctx.buffer txn = some newBuffer ∧
          (ctx.selections txn).mapM (ctx.getCurrentNode newBuffer) = some nextNodes ∧
          (∀ n ∈ nextNodes, n.kindId = currentNode.kindId ∧
            n.byteRangeLen = currentNode.byteRangeLen) ∧
          ctx.hasSyntaxErrorAtRange newBuffer txn = false) ∧
    (∀ (fuel : Nat) (sels : List Sel),
        (∀ s ∈ sels, ctx.getSelection s = some s) →
        replaceFaultlesslyTransactions ctx fuel sels = []) := by
  constructor
  · intro fuel cur txn hnode h
    rw [getValidSelection] at h
    cases hgs : ctx.getSelection cur with
    | none => rw [hgs, Option.none_bind] at h; exact absurd h (by simp)
    | some next =>
      rw [hgs, Option.some_bind] at h
      by_cases heq : next = cur
      · rw [if_pos heq] at h
        exact absurd (Option.some_inj.mp h) (by simp)
      · rw [if_neg heq] at h
        exact getValidSelectionLoop_inr ctx cur hnode fuel next txn h
  · intro fuel sels hsat
    induction sels with
    | nil => rfl
    | cons s ss ih =>
      rw [replaceFaultlesslyTransactions, List.map_cons, List.filterMap_cons]
      have hs : getValidSelection ctx fuel s = some (Sum.inl s) := by
        rw [getValidSelection, hsat s (List.mem_cons_self s ss), Option.some_bind,
          if_pos rfl]
      rw [hs]
      exact ih fun x hx => hsat x (List.mem_cons_of_mem s hx)

/-- Witness for C4: the commit path on `exchangeCtxExample` (fuel 1, cursor 0
commits transaction 1) and the saturated no-op path on `exchangeCtxSaturated`
for cursors `[0, 5]`. -/
theorem C4_witness :
    (∃ currentNode newBuffer nextNodes,
        exchangeCtxExample.getCurrentNode exchangeCtxExample.buffer 0
          = some currentNode ∧
        exchangeCtxExample.applyEditTransaction exchangeCtxExample.buffer 1
          = some newBuffer ∧
        (exchangeCtxExample.selections 1).mapM
            (exchangeCtxExample.getCurrentNode newBuffer) = some nextNodes ∧
        (∀ n ∈ nextNodes, n.kindId = currentNode.kindId ∧
          n.byteRangeLen = currentNode.byteRangeLen) ∧
        exchangeCtxExample.hasSyntaxErrorAtRange newBuffer 1 = false) ∧
    replaceFaultlesslyTransactions exchangeCtxSaturated 3 [0, 5] = [] :=
  ⟨(C4_exchange_structure_preservation exchangeCtxExample).1 1 0 1 rfl (by decide),
   (C4_exchange_structure_preservation exchangeCtxSaturated).2 3 [0, 5]
     (by intro s _; rfl)⟩
